import Mathlib

/-!
Verification development for the seahorn DSA global analysis
(`src/lib/Analysis/DSA/DsaGlobal.cc`).

The engines in `DsaGlobal.cc` are embedded shallowly: the points-to
graph, cloner, simulation mapper, local analysis, bottom-up analysis and
`Graph::import` live in headers and translation units outside this source
slice, so they are modelled from the spec (each such definition carries a
doc comment starting with `Modelled from the spec:`); everything else is
translated directly from `DsaGlobal.cc`.
-/

namespace Dsa

/-- Program locations (LLVM values: locals, call instructions, formals,
globals) are identified by natural numbers. -/
abbrev Loc := Nat

/-- Functions are identified by natural numbers. -/
abbrev FuncId := Nat

/-- Call-site instructions are identified by natural numbers; a call
instruction is also a program location (the abstract location of the
call's result). -/
abbrev Inst := Nat

/-- First-match association-list lookup (models map lookup by key). -/
def lookupA {α : Type} : List (Nat × α) → Nat → Option α
  | [], _ => none
  | (k, v) :: rest, x => if k = x then some v else lookupA rest x

/-- Modelled from the spec: a Cell is a reference `(Node, byte-offset)`
(§3); Node identities are indices into the owning graph's arena. -/
structure Cell where
  node : Nat
  offset : Nat
deriving DecidableEq, Repr

/-- Modelled from the spec: a points-to Graph (§3, §9) owns an arena of
Nodes (`nextNode` counts allocated ids), a union-find forwarding map
(`forward`: a merged-away node is linked to the node it was merged into),
a mapping from program locations to Cells, and per-function return cells.
(`Graph.hh` / `Graph.cc` are not part of this source slice.) -/
structure Graph where
  nextNode : Nat
  forward : List (Nat × Nat)
  cells : List (Loc × Cell)
  retCells : List (FuncId × Cell)
deriving DecidableEq, Repr

def Graph.empty : Graph := { nextNode := 0, forward := [], cells := [], retCells := [] }

/-- Follow forwarding links for at most `fuel` steps. -/
def chase (fwd : List (Nat × Nat)) : Nat → Nat → Nat
  | 0, n => n
  | fuel + 1, n =>
    match lookupA fwd n with
    | none => n
    | some m => chase fwd fuel m

/-- Representative of a node after following merge-forwarding. -/
def Graph.findRep (g : Graph) (n : Nat) : Nat := chase g.forward g.forward.length n

def Graph.hasCell (g : Graph) (l : Loc) : Bool := (lookupA g.cells l).isSome

def Graph.getCell (g : Graph) (l : Loc) : Cell := (lookupA g.cells l).getD ⟨0, 0⟩

/-- Modelled from the spec: `mkCell` returns the existing cell for a
location or creates a fresh one bound to a fresh Node at offset 0 (§4.1). -/
def Graph.mkCell (g : Graph) (l : Loc) : Graph × Cell :=
  match lookupA g.cells l with
  | some c => (g, c)
  | none =>
    ({ g with nextNode := g.nextNode + 1,
              cells := g.cells ++ [(l, ⟨g.nextNode, 0⟩)] },
     ⟨g.nextNode, 0⟩)

/-- Modelled from the spec: `unify` merges the Nodes underlying two cells
(§4.1); in union-find terms the first cell's representative is forwarded
to the second's. -/
def Graph.unify (g : Graph) (c d : Cell) : Graph :=
  if g.findRep c.node = g.findRep d.node then g
  else { g with forward := g.forward ++ [(g.findRep c.node, g.findRep d.node)] }

/-- Modelled from the spec: `compress` flattens merge-forwarding chains to
final representatives (§4.1, §9). -/
def Graph.compress (g : Graph) : Graph :=
  { g with forward := g.forward.map (fun p => (p.1, g.findRep p.1)) }

def Graph.hasRetCell (g : Graph) (f : FuncId) : Bool := (lookupA g.retCells f).isSome

def Graph.getRetCell (g : Graph) (f : FuncId) : Cell := (lookupA g.retCells f).getD ⟨0, 0⟩

/-- The sub-mapping of global locations of a graph (§3), given the
program's predicate telling which locations are globals. -/
def Graph.globalsOf (g : Graph) (gl : Loc → Bool) : List (Loc × Cell) :=
  g.cells.filter (fun p => gl p.1)

/-- Representative node (and offset) a location resolves to, if mapped. -/
def Graph.repOfLoc (g : Graph) (l : Loc) : Option (Nat × Nat) :=
  (lookupA g.cells l).map (fun c => (g.findRep c.node, c.offset))

/-- Modelled from the spec: `Graph::import` merges another graph into this
one by location identity (§4.3): source nodes are brought in under fresh
ids and a location mapped on both sides has its two cells unified. -/
def Graph.import (dest src : Graph) : Graph :=
  let shift := dest.nextNode
  let d0 : Graph :=
    { dest with
      nextNode := dest.nextNode + src.nextNode,
      forward := dest.forward ++ src.forward.map (fun p => (p.1 + shift, p.2 + shift)) }
  let d1 := src.cells.foldl
    (fun d (p : Loc × Cell) =>
      let c : Cell := ⟨p.2.node + shift, p.2.offset⟩
      match lookupA d.cells p.1 with
      | some c0 => d.unify c0 c
      | none => { d with cells := d.cells ++ [(p.1, c)] }) d0
  src.retCells.foldl
    (fun d (p : FuncId × Cell) =>
      let c : Cell := ⟨p.2.node + shift, p.2.offset⟩
      match lookupA d.retCells p.1 with
      | some c0 => d.unify c0 c
      | none => { d with retCells := d.retCells ++ [(p.1, c)] }) d1

/-- The call-site abstraction (`DsaCallSite`, external §6): caller,
statically-resolved callee (or `none` for indirect/unresolved calls), the
call instruction itself (as a location), parallel actual/formal lists and
the inline-asm flag. -/
structure CallSiteInfo where
  caller : FuncId
  callee : Option FuncId
  inst : Loc
  actuals : List Loc
  formals : List Loc
  isInlineAsm : Bool
deriving DecidableEq, Repr

/-- A call-graph node (external provider, §6): its function (`none` for
the external node) and the call-site instructions it indexes. -/
structure CGNode where
  fn : Option FuncId
  calls : List Inst
deriving DecidableEq, Repr

/-- The module together with its external collaborators (§6): function
list, declaration/empty predicates, the call graph already decomposed
into SCCs in bottom-up order, the call-site abstraction, the local
analysis result per function, and the predicate telling which locations
are global variables. -/
structure ModuleEnv where
  functions : List FuncId
  isDeclaration : FuncId → Bool
  isEmpty : FuncId → Bool
  sccs : List (List CGNode)
  callSite : Inst → CallSiteInfo
  localGraph : FuncId → Graph
  isGlobalLoc : Loc → Bool

/-- A function is analysed iff it is neither a declaration nor empty
(the `fn->isDeclaration() || fn->empty()` guard). -/
def ModuleEnv.hasBody (env : ModuleEnv) (f : FuncId) : Bool :=
  !env.isDeclaration f && !env.isEmpty f

/-- Modelled from the spec: the observable result of a successful
`SimulationMapper` computation (§4.5): whether every callee-interface
cell has exactly one image, and whether the mapping is one-to-one.
(`Graph.cc` is not part of this source slice.) -/
structure SimulationMapper where
  isFunction : Bool
  isInjective : Bool
deriving DecidableEq, Repr

/-- Modelled from the spec: the outcome of
`Graph::computeCalleeCallerMapping` (§4.5) for a call site and a pair of
graphs, as an oracle: `none` means no valid mapping exists, `some sm`
exposes the mapper's two predicates. -/
abbrev MapperOracle := CallSiteInfo → Graph → Graph → Option SimulationMapper

/-- The three propagation decisions of the context-sensitive engine. -/
inductive PropagationKind
  | UP
  | DOWN
  | NONE
deriving DecidableEq, Repr

/-- Translated from `ContextSensitiveGlobalAnalysis::decidePropagation`
(DsaGlobal.cc:304-316): start from UP; if a callee-to-caller mapping was
computed and it is a function, the result is NONE when injective and DOWN
otherwise. -/
def decidePropagation (oracle : MapperOracle) (cs : CallSiteInfo)
    (calleeG callerG : Graph) : PropagationKind :=
  match oracle cs calleeG callerG with
  | none => PropagationKind.UP
  | some sm =>
    if sm.isFunction then
      (if sm.isInjective then PropagationKind.NONE else PropagationKind.DOWN)
    else PropagationKind.UP

/-- Modelled from the spec: the Cloner (§4.2, `Cloner.hh` not in this
slice) deep-copies nodes from a source graph into a destination graph
with a memoized identity map keyed by source representative. -/
structure Cloner where
  g : Graph
  map : List (Nat × Nat)

/-- Modelled from the spec: `clone(node)` returns the destination node for
a source node, memoized on the source representative (§4.2). -/
def Cloner.clone (c : Cloner) (srcG : Graph) (n : Nat) : Cloner × Nat :=
  match lookupA c.map (srcG.findRep n) with
  | some d => (c, d)
  | none =>
    ({ g := { c.g with nextNode := c.g.nextNode + 1 },
       map := c.map ++ [(srcG.findRep n, c.g.nextNode)] },
     c.g.nextNode)

/-- Bookkeeping events recording which clone-and-unify operations a
clone-and-resolve run performs, in order: one per cloned-and-unified
global location, one for the return cell, one per cloned-and-unified
actual/formal pair (by position), and one per `compress()` call. -/
inductive CloneEvent
  | global (l : Loc)
  | ret
  | arg (k : Nat)
  | compressed
deriving DecidableEq, Repr

/-- The global-cloning loop of `cloneAndResolveArguments`
(DsaGlobal.cc:189-196): for each global location of the caller graph,
clone its node into the callee graph, make the callee cell for that
location and unify. -/
def cloneGlobalsLoop (callerG : Graph) :
    Cloner → List (Loc × Cell) → List CloneEvent → Cloner × List CloneEvent
  | C, [], ev => (C, ev)
  | C, (l, cell) :: rest, ev =>
    let p := C.clone callerG cell.node
    let q := p.1.g.mkCell l
    let g2 := q.1.unify q.2 ⟨p.2, cell.offset⟩
    cloneGlobalsLoop callerG { g := g2, map := p.1.map } rest
      (ev ++ [CloneEvent.global l])

/-- The actual/formal loop of `cloneAndResolveArguments`
(DsaGlobal.cc:209-222): pairs are walked up to the shorter of the two
lists; a pair is cloned and unified only when the caller graph has a cell
for the actual and the callee graph has a cell for the formal. `k` is the
bookkeeping position of the head pair. -/
def cloneArgsLoop (callerG : Graph) :
    Cloner → List (Loc × Loc) → Nat → List CloneEvent → Cloner × List CloneEvent
  | C, [], _, ev => (C, ev)
  | C, (arg, fml) :: rest, k, ev =>
    if callerG.hasCell arg && C.g.hasCell fml then
      let ac := callerG.getCell arg
      let p := C.clone callerG ac.node
      let q := p.1.g.mkCell fml
      let g2 := q.1.unify q.2 ⟨p.2, ac.offset⟩
      cloneArgsLoop callerG { g := g2, map := p.1.map } rest (k + 1)
        (ev ++ [CloneEvent.arg k])
    else cloneArgsLoop callerG C rest (k + 1) ev

/-- Translated from `cloneAndResolveArguments` (DsaGlobal.cc:183-224),
the caller-into-callee clone-and-resolve helper: clone and unify the
caller's globals, then the return cell (when the callee graph has a
return cell for the callee and the caller graph has a cell for the call
instruction), then the actual/formal pairs, and finally `compress()` the
callee graph. Returns the new callee graph and the event trace. -/
def cloneAndResolveArguments (gl : Loc → Bool) (cs : CallSiteInfo)
    (callerG calleeG : Graph) : Graph × List CloneEvent :=
  let C0 : Cloner := { g := calleeG, map := [] }
  let r1 := cloneGlobalsLoop callerG C0 (callerG.globalsOf gl) []
  let callee := cs.callee.getD 0
  let r2 :=
    if r1.1.g.hasRetCell callee && callerG.hasCell cs.inst then
      let rc := callerG.getCell cs.inst
      let p := r1.1.clone callerG rc.node
      let nc := p.1.g.getRetCell callee
      let g2 := p.1.g.unify nc ⟨p.2, rc.offset⟩
      (({ g := g2, map := p.1.map } : Cloner), r1.2 ++ [CloneEvent.ret])
    else r1
  let r3 := cloneArgsLoop callerG r2.1 (cs.actuals.zip cs.formals) 0 r2.2
  (r3.1.g.compress, r3.2 ++ [CloneEvent.compressed])

/-- Modelled from the spec:
`BottomUpAnalysis::cloneAndResolveArguments` (`BottomUp.cc` not in this
slice) is the symmetric callee-into-caller clone-and-resolve (§4.2,
§4.4): clone and unify the callee's globals into the caller, then the
callee's return cell with the caller's cell for the call instruction,
then each formal into its actual, then `compress()` the caller graph. -/
def buCloneAndResolveArguments (gl : Loc → Bool) (cs : CallSiteInfo)
    (calleeG callerG : Graph) : Graph :=
  let C0 : Cloner := { g := callerG, map := [] }
  let C1 := (calleeG.globalsOf gl).foldl
    (fun C (p : Loc × Cell) =>
      let r := C.clone calleeG p.2.node
      let q := r.1.g.mkCell p.1
      { g := q.1.unify q.2 ⟨r.2, p.2.offset⟩, map := r.1.map }) C0
  let callee := cs.callee.getD 0
  let C2 :=
    if calleeG.hasRetCell callee then
      let rc := calleeG.getRetCell callee
      let r := C1.clone calleeG rc.node
      let q := r.1.g.mkCell cs.inst
      ({ g := q.1.unify q.2 ⟨r.2, rc.offset⟩, map := r.1.map } : Cloner)
    else C1
  let C3 := (cs.actuals.zip cs.formals).foldl
    (fun C (p : Loc × Loc) =>
      if calleeG.hasCell p.2 then
        let fc := calleeG.getCell p.2
        let r := C.clone calleeG fc.node
        let q := r.1.g.mkCell p.1
        ({ g := q.1.unify q.2 ⟨r.2, fc.offset⟩, map := r.1.map } : Cloner)
      else C) C2
  C3.g.compress

/-- Translated from `ContextInsensitiveGlobalAnalysis::resolveArguments`
(DsaGlobal.cc:34-60): in the shared graph, unify the call instruction's
cell with the callee's return cell (if any), and unify each actual's cell
with its formal's cell when the formal has a cell, walking pairs up to
the shorter list. -/
def resolveArguments (cs : CallSiteInfo) (g : Graph) : Graph :=
  let callee := cs.callee.getD 0
  let g1 :=
    if g.hasRetCell callee then
      let q := g.mkCell cs.inst
      let r := q.1.getRetCell callee
      q.1.unify q.2 ⟨r.node, r.offset⟩
    else g
  (cs.formals.zip cs.actuals).foldl
    (fun g (p : Loc × Loc) =>
      if g.hasCell p.1 then
        let qa := g.mkCell p.2
        let qf := qa.1.mkCell p.1
        qf.1.unify qa.2 qf.2
      else g) g1

/-- State of the context-insensitive engine: the one shared graph
(`m_graph`) and the set of imported functions (`m_fns`). -/
structure CIState where
  graph : Graph
  fns : List FuncId

/-- Set-style insertion into `m_fns` (a membership-deduplicating add). -/
def insertFn (fns : List FuncId) (f : FuncId) : List FuncId :=
  if f ∈ fns then fns else fns ++ [f]

/-- Import phase of one SCC (DsaGlobal.cc:80-91): every member that is
neither null, a declaration nor empty has its local graph computed, then
merged into the shared graph, and is recorded in `m_fns`. -/
def ciImportScc (env : ModuleEnv) : CIState → List CGNode → CIState
  | st, [] => st
  | st, n :: rest =>
    match n.fn with
    | none => ciImportScc env st rest
    | some fn =>
      if env.hasBody fn then
        ciImportScc env
          ⟨st.graph.import (env.localGraph fn), insertFn st.fns fn⟩ rest
      else ciImportScc env st rest

/-- Call-record resolution for one node's call list (DsaGlobal.cc:104-117):
direct calls to non-declaration, non-empty callees are resolved in the
shared graph; indirect and external calls are skipped. -/
def ciResolveCalls (env : ModuleEnv) : Graph → List Inst → Graph
  | g, [] => g
  | g, i :: rest =>
    let cs := env.callSite i
    match cs.callee with
    | none => ciResolveCalls env g rest
    | some callee =>
      if env.hasBody callee then ciResolveCalls env (resolveArguments cs g) rest
      else ciResolveCalls env g rest

/-- Resolution phase of one SCC (DsaGlobal.cc:94-118). -/
def ciResolveScc (env : ModuleEnv) : Graph → List CGNode → Graph
  | g, [] => g
  | g, n :: rest =>
    match n.fn with
    | none => ciResolveScc env g rest
    | some fn =>
      if env.hasBody fn then ciResolveScc env (ciResolveCalls env g n.calls) rest
      else ciResolveScc env g rest

/-- One SCC of the context-insensitive sweep (DsaGlobal.cc:75-120): all
members are merged in, all their call sites resolved, then `compress()`
runs on the shared graph once. -/
def ciSccStep (env : ModuleEnv) (st : CIState) (scc : List CGNode) : CIState :=
  let st1 := ciImportScc env st scc
  { graph := (ciResolveScc env st1.graph scc).compress, fns := st1.fns }

/-- Translated from `ContextInsensitiveGlobalAnalysis::runOnModule`
(DsaGlobal.cc:62-127): start from a fresh shared graph, process the call
graph SCC by SCC, and return `false`. -/
def ciRunOnModule (env : ModuleEnv) : CIState × Bool :=
  (env.sccs.foldl (ciSccStep env) ⟨Graph.empty, []⟩, false)

/-- Translated from `ContextInsensitiveGlobalAnalysis::getGraph`
(DsaGlobal.cc:130-134): the function argument is ignored; the one shared
graph is returned. -/
def ciGetGraph (st : CIState) (_f : FuncId) : Graph := st.graph

/-- Translated from `ContextInsensitiveGlobalAnalysis::hasGraph`
(DsaGlobal.cc:136-137): membership of the function in `m_fns`. -/
def ciHasGraph (st : CIState) (f : FuncId) : Bool := decide (f ∈ st.fns)

/-- Set-style insertion into an `InstSet`. -/
def setInsert (s : List Inst) (i : Inst) : List Inst :=
  if i ∈ s then s else s ++ [i]

/-- Translated from the worklist `Insert` helper (DsaGlobal.cc:318-324):
linear-scan duplicate suppression followed by `push_back`. -/
def Insert (w : List Inst) (i : Inst) : List Inst :=
  if i ∈ w then w else w ++ [i]

/-- The worklist removal used by the fixpoint loop
(DsaGlobal.cc:395-396): `back()` then `pop_back()`. -/
def popBack (w : List Inst) : Option (Inst × List Inst) :=
  match w.getLast? with
  | none => none
  | some i => some (i, w.dropLast)

/-- Adding one predecessor call site to the `imm_preds` map
(DsaGlobal.cc:253-261). -/
def addPred (m : List (FuncId × List Inst)) (f : FuncId) (i : Inst) :
    List (FuncId × List Inst) :=
  match lookupA m f with
  | some _ => m.map (fun p => if p.1 = f then (p.1, setInsert p.2 i) else p)
  | none => m ++ [(f, [i])]

/-- `imm_preds` accumulation over one node's call records
(DsaGlobal.cc:247-262): only direct calls to non-declaration, non-empty
callees count. -/
def immPredsCalls (env : ModuleEnv) :
    List (FuncId × List Inst) → List Inst → List (FuncId × List Inst)
  | m, [] => m
  | m, i :: rest =>
    match (env.callSite i).callee with
    | none => immPredsCalls env m rest
    | some callee =>
      if env.hasBody callee then immPredsCalls env (addPred m callee i) rest
      else immPredsCalls env m rest

/-- `imm_preds` accumulation over one SCC (DsaGlobal.cc:239-263). -/
def immPredsNodes (env : ModuleEnv) :
    List (FuncId × List Inst) → List CGNode → List (FuncId × List Inst)
  | m, [] => m
  | m, n :: rest =>
    match n.fn with
    | none => immPredsNodes env m rest
    | some fn =>
      if env.hasBody fn then immPredsNodes env (immPredsCalls env m n.calls) rest
      else immPredsNodes env m rest

/-- The immediate-predecessor (call-site) map of `buildIndexes`
(DsaGlobal.cc:238-264). -/
def immPreds (env : ModuleEnv) : List (FuncId × List Inst) :=
  env.sccs.foldl (immPredsNodes env) []

/-- The shared use-set of one SCC (DsaGlobal.cc:281): union of
`imm_preds` over the members with bodies. -/
def sccUses (env : ModuleEnv) (preds : List (FuncId × List Inst)) :
    List Inst → List CGNode → List Inst
  | acc, [] => acc
  | acc, n :: rest =>
    match n.fn with
    | none => sccUses env preds acc rest
    | some fn =>
      if env.hasBody fn then
        sccUses env preds (((lookupA preds fn).getD []).foldl setInsert acc) rest
      else sccUses env preds acc rest

/-- The shared def-set of one SCC (DsaGlobal.cc:283-287): every call
record instruction issued by a member with a body. -/
def sccDefs (env : ModuleEnv) : List Inst → List CGNode → List Inst
  | acc, [] => acc
  | acc, n :: rest =>
    match n.fn with
    | none => sccDefs env acc rest
    | some fn =>
      if env.hasBody fn then sccDefs env (n.calls.foldl setInsert acc) rest
      else sccDefs env acc rest

/-- Overwriting insertion into a per-function map. -/
def setEntry (m : List (FuncId × List Inst)) (f : FuncId) (v : List Inst) :
    List (FuncId × List Inst) :=
  match lookupA m f with
  | some _ => m.map (fun p => if p.1 = f then (p.1, v) else p)
  | none => m ++ [(f, v)]

/-- Binding one SCC's shared use/def sets to every member with a body
(DsaGlobal.cc:291-298). -/
def installSets (env : ModuleEnv) (u d : List Inst) :
    List (FuncId × List Inst) × List (FuncId × List Inst) → List CGNode →
    List (FuncId × List Inst) × List (FuncId × List Inst)
  | md, [] => md
  | md, n :: rest =>
    match n.fn with
    | none => installSets env u d md rest
    | some fn =>
      if env.hasBody fn then
        installSets env u d (setEntry md.1 fn u, setEntry md.2 fn d) rest
      else installSets env u d md rest

/-- Translated from `ContextSensitiveGlobalAnalysis::buildIndexes`
(DsaGlobal.cc:229-300): `m_uses` and `m_defs`. -/
def buildIndexes (env : ModuleEnv) :
    List (FuncId × List Inst) × List (FuncId × List Inst) :=
  let preds := immPreds env
  env.sccs.foldl
    (fun md scc =>
      installSets env (sccUses env preds [] scc) (sccDefs env [] scc) md scc)
    ([], [])

/-- State of the context-sensitive engine: per-function graphs
(`m_graphs`), the use/def indexes (`m_uses`, `m_defs`) and the worklist. -/
structure CSState where
  graphs : List (FuncId × Graph)
  uses : List (FuncId × List Inst)
  defs : List (FuncId × List Inst)
  worklist : List Inst

/-- Lookup in a per-function graph map (the `m_graphs.find(...)` pattern;
presence is an asserted precondition in the source). -/
def lookupG (gs : List (FuncId × Graph)) (f : FuncId) : Graph :=
  (lookupA gs f).getD Graph.empty

/-- Overwrite the graph of a function already present in the map. -/
def updateG : List (FuncId × Graph) → FuncId → Graph → List (FuncId × Graph)
  | [], _, _ => []
  | p :: rest, f, g => (if p.1 = f then (p.1, g) else p) :: updateG rest f g

/-- Lookup in a use/def index. -/
def getSet (m : List (FuncId × List Inst)) (f : FuncId) : List Inst :=
  (lookupA m f).getD []

/-- One iteration of the context-sensitive worklist loop
(DsaGlobal.cc:393-441): pop the back of the worklist; skip inline-asm
pseudo-calls and unresolved/declaration/empty callees; otherwise decide
the propagation. On DOWN, clone the caller into the callee and re-insert
the callee's use- and def-sets; on UP, clone the callee into the caller
and re-insert the caller's use- and def-sets; on NONE, do nothing. -/
def csStep (env : ModuleEnv) (oracle : MapperOracle) (st : CSState) : CSState :=
  match popBack st.worklist with
  | none => st
  | some (I, w) =>
    let cs := env.callSite I
    if cs.isInlineAsm then { st with worklist := w }
    else
      match cs.callee with
      | none => { st with worklist := w }
      | some callee =>
        if env.hasBody callee then
          let callerG := lookupG st.graphs cs.caller
          let calleeG := lookupG st.graphs callee
          match decidePropagation oracle cs calleeG callerG with
          | PropagationKind.DOWN =>
            let calleeG2 := (cloneAndResolveArguments env.isGlobalLoc cs callerG calleeG).1
            let w1 := (getSet st.uses callee).foldl Insert w
            let w2 := (getSet st.defs callee).foldl Insert w1
            { graphs := updateG st.graphs callee calleeG2,
              uses := st.uses, defs := st.defs, worklist := w2 }
          | PropagationKind.UP =>
            let callerG2 := buCloneAndResolveArguments env.isGlobalLoc cs calleeG callerG
            let w1 := (getSet st.uses cs.caller).foldl Insert w
            let w2 := (getSet st.defs cs.caller).foldl Insert w1
            { graphs := updateG st.graphs cs.caller callerG2,
              uses := st.uses, defs := st.defs, worklist := w2 }
          | PropagationKind.NONE => { st with worklist := w }
        else { st with worklist := w }

/-- The fixpoint loop (DsaGlobal.cc:393-441), with explicit fuel to keep
the embedding total: iterate `csStep` while the worklist is nonempty. -/
def csLoop (env : ModuleEnv) (oracle : MapperOracle) : Nat → CSState → CSState
  | 0, st => st
  | fuel + 1, st =>
    if st.worklist.isEmpty then st
    else csLoop env oracle fuel (csStep env oracle st)

/-- Modelled from the spec: the SCC import step of
`BottomUpAnalysis::runOnModule` (§4.4 Phase 1, `BottomUp.cc` not in this
slice): each member's local graph is imported into its own graph. -/
def buImportScc (env : ModuleEnv) :
    List (FuncId × Graph) → List CGNode → List (FuncId × Graph)
  | gs, [] => gs
  | gs, n :: rest =>
    match n.fn with
    | none => buImportScc env gs rest
    | some fn =>
      if env.hasBody fn then
        buImportScc env
          (updateG gs fn ((lookupG gs fn).import (env.localGraph fn))) rest
      else buImportScc env gs rest

/-- Modelled from the spec: the bottom-up resolution of one node's call
records (§4.4 Phase 1): each resolvable call site has the callee summary
cloned into the caller, and its callee-to-caller simulation-mapper result
is recorded. -/
def buResolveCalls (env : ModuleEnv) (oracle : MapperOracle) :
    List (FuncId × Graph) × List (Inst × SimulationMapper) → List Inst →
    List (FuncId × Graph) × List (Inst × SimulationMapper)
  | acc, [] => acc
  | acc, i :: rest =>
    let cs := env.callSite i
    match cs.callee with
    | none => buResolveCalls env oracle acc rest
    | some callee =>
      if env.hasBody callee then
        let calleeG := lookupG acc.1 callee
        let callerG := lookupG acc.1 cs.caller
        let callerG2 := buCloneAndResolveArguments env.isGlobalLoc cs calleeG callerG
        let gs2 := updateG acc.1 cs.caller callerG2
        let ms2 :=
          match oracle cs calleeG callerG2 with
          | some sm => acc.2 ++ [(i, sm)]
          | none => acc.2
        buResolveCalls env oracle (gs2, ms2) rest
      else buResolveCalls env oracle acc rest

/-- Modelled from the spec: bottom-up resolution over one SCC. -/
def buResolveScc (env : ModuleEnv) (oracle : MapperOracle) :
    List (FuncId × Graph) × List (Inst × SimulationMapper) → List CGNode →
    List (FuncId × Graph) × List (Inst × SimulationMapper)
  | acc, [] => acc
  | acc, n :: rest =>
    match n.fn with
    | none => buResolveScc env oracle acc rest
    | some fn =>
      if env.hasBody fn then
        buResolveScc env oracle (buResolveCalls env oracle acc n.calls) rest
      else buResolveScc env oracle acc rest

/-- Modelled from the spec: `BottomUpAnalysis::runOnModule` (§4.4 Phase 1,
§6): SCC-ordered local-graph import plus bottom-up cloning of callee
summaries into callers, returning the updated per-function graph map and
the per-call-site simulation-mapper results. -/
def buRunOnModule (env : ModuleEnv) (oracle : MapperOracle)
    (graphs : List (FuncId × Graph)) :
    List (FuncId × Graph) × List (Inst × SimulationMapper) :=
  env.sccs.foldl
    (fun acc scc => buResolveScc env oracle (buImportScc env acc.1 scc, acc.2) scc)
    (graphs, [])

/-- Worklist seeding (DsaGlobal.cc:380-387): every call site whose
bottom-up simulation mapper is not injective is pushed. -/
def seedWorklist (mappings : List (Inst × SimulationMapper)) : List Inst :=
  mappings.foldl (fun w p => if p.2.isInjective then w else w ++ [p.1]) []

/-- The propagation decision `checkNoMorePropagation` computes for one
call site (DsaGlobal.cc:473-484). -/
def sitePK (env : ModuleEnv) (oracle : MapperOracle)
    (graphs : List (FuncId × Graph)) (i : Inst) : PropagationKind :=
  let cs := env.callSite i
  decidePropagation oracle cs (lookupG graphs (cs.callee.getD 0))
    (lookupG graphs cs.caller)

/-- The scan of `checkNoMorePropagation` over the resolvable call sites
(DsaGlobal.cc:463-497): the first site whose decision is not NONE is
diagnosed (instruction and required direction) and the scan returns
`false` immediately; otherwise it returns `true` with no diagnostics. -/
def checkLoop (env : ModuleEnv) (oracle : MapperOracle)
    (graphs : List (FuncId × Graph)) :
    List Inst → Bool × List (Inst × PropagationKind)
  | [] => (true, [])
  | i :: rest =>
    let pk := sitePK env oracle graphs i
    if pk = PropagationKind.NONE then checkLoop env oracle graphs rest
    else (false, [(i, pk)])

/-- Resolvable call records of one node, in scan order
(DsaGlobal.cc:471-477). -/
def csResolvableCalls (env : ModuleEnv) : List Inst → List Inst → List Inst
  | acc, [] => acc
  | acc, i :: rest =>
    match (env.callSite i).callee with
    | none => csResolvableCalls env acc rest
    | some callee =>
      if env.hasBody callee then csResolvableCalls env (acc ++ [i]) rest
      else csResolvableCalls env acc rest

/-- Resolvable call records of one SCC, in scan order
(DsaGlobal.cc:466-469). -/
def csResolvableNodes (env : ModuleEnv) : List Inst → List CGNode → List Inst
  | acc, [] => acc
  | acc, n :: rest =>
    match n.fn with
    | none => csResolvableNodes env acc rest
    | some fn =>
      if env.hasBody fn then
        csResolvableNodes env (csResolvableCalls env acc n.calls) rest
      else csResolvableNodes env acc rest

/-- Every resolvable call site of the call graph, in the scan order of
`checkNoMorePropagation` (DsaGlobal.cc:463-495). -/
def csResolvableSites (env : ModuleEnv) : List Inst :=
  env.sccs.foldl (csResolvableNodes env) []

/-- Translated from
`ContextSensitiveGlobalAnalysis::checkNoMorePropagation`
(DsaGlobal.cc:461-498): scan every resolvable call site and fail on the
first one still requiring propagation, reporting its instruction and the
required direction. -/
def checkNoMorePropagation (env : ModuleEnv) (oracle : MapperOracle)
    (graphs : List (FuncId × Graph)) : Bool × List (Inst × PropagationKind) :=
  checkLoop env oracle graphs (csResolvableSites env)

/-- Translated from `ContextSensitiveGlobalAnalysis::runOnModule`
(DsaGlobal.cc:357-456): create a fresh graph for every module function,
run the bottom-up analysis, build the indexes, seed the worklist from the
non-injective bottom-up mappers, run the fixpoint loop, run the
post-condition check (its result is not acted upon), and return `false`. -/
def csRunOnModule (env : ModuleEnv) (oracle : MapperOracle) (fuel : Nat) :
    CSState × Bool :=
  let graphs0 := env.functions.map (fun f => (f, Graph.empty))
  let bu := buRunOnModule env oracle graphs0
  let idx := buildIndexes env
  let st0 : CSState :=
    { graphs := bu.1, uses := idx.1, defs := idx.2, worklist := seedWorklist bu.2 }
  let st1 := csLoop env oracle fuel st0
  let _ := checkNoMorePropagation env oracle st1.graphs
  (st1, false)

/-- Translated from `ContextSensitiveGlobalAnalysis::hasGraph`
(DsaGlobal.cc:506-507): membership of the function in `m_graphs`. -/
def csHasGraph (st : CSState) (f : FuncId) : Bool := (lookupA st.graphs f).isSome

/-- Translated from `ContextSensitiveGlobalAnalysis::getGraph`
(DsaGlobal.cc:500-504). -/
def csGetGraph (st : CSState) (f : FuncId) : Graph := lookupG st.graphs f

/-! Concrete instances used by counterexamples and witnesses. -/

/-- A trivial direct call site with no arguments. -/
def csTrivial : CallSiteInfo :=
  { caller := 0, callee := some 1, inst := 0, actuals := [], formals := [],
    isInlineAsm := false }

/-- A mapper oracle whose mapping always exists but is never a function. -/
def oracleNotFunction : MapperOracle :=
  fun _ _ _ => some { isFunction := false, isInjective := false }

/-- C1 -- counterexample. The claim says UP is returned exactly when no
valid callee-to-caller simulation mapping exists. Here the mapping exists
(the oracle returns a mapper) but is not a function, and
`decidePropagation` still returns UP (DsaGlobal.cc:308-315 leaves the
default UP in place whenever `sm.isFunction()` is false). -/
theorem c1_counterexample :
    decidePropagation oracleNotFunction csTrivial Graph.empty Graph.empty =
      PropagationKind.UP ∧
    oracleNotFunction csTrivial Graph.empty Graph.empty ≠ none := by
  constructor
  · rfl
  · decide

/-- C1 (amended) -- `decidePropagation` returns UP exactly when no valid
mapping exists or the mapping exists but is not a function over the
callee's interface; DOWN exactly when the mapping exists, is a function,
and is not injective; NONE exactly when the mapping exists, is a
function, and is injective. (Totality over the three values is the type
of the result.) -/
theorem c1_amended_decide_propagation (oracle : MapperOracle) (cs : CallSiteInfo)
    (calleeG callerG : Graph) :
    (decidePropagation oracle cs calleeG callerG = PropagationKind.UP ↔
      oracle cs calleeG callerG = none ∨
        ∃ sm, oracle cs calleeG callerG = some sm ∧ sm.isFunction = false) ∧
    (decidePropagation oracle cs calleeG callerG = PropagationKind.DOWN ↔
      ∃ sm, oracle cs calleeG callerG = some sm ∧ sm.isFunction = true ∧
        sm.isInjective = false) ∧
    (decidePropagation oracle cs calleeG callerG = PropagationKind.NONE ↔
      ∃ sm, oracle cs calleeG callerG = some sm ∧ sm.isFunction = true ∧
        sm.isInjective = true) := by
  cases h : oracle cs calleeG callerG with
  | none => simp [decidePropagation, h]
  | some sm =>
    obtain ⟨f, i⟩ := sm
    cases f <;> cases i <;> simp [decidePropagation, h]

/-- C5 -- after the context-insensitive run, `getGraph` returns the one
shared graph for every function (the identical object; in the model, the
same value), so a location referenced through any two functions resolves
to the same representative node in that shared graph. -/
theorem c5_shared_graph (env : ModuleEnv) (f g : FuncId) (l : Loc) :
    ciGetGraph (ciRunOnModule env).1 f = ciGetGraph (ciRunOnModule env).1 g ∧
    Graph.repOfLoc (ciGetGraph (ciRunOnModule env).1 f) l =
      Graph.repOfLoc (ciGetGraph (ciRunOnModule env).1 g) l :=
  ⟨rfl, rfl⟩

/-- C6 -- `runOnModule` of both engines returns `false` on every module:
the analyses never report modifying the module. -/
theorem c6_run_on_module_false (env : ModuleEnv) (oracle : MapperOracle)
    (fuel : Nat) :
    (ciRunOnModule env).2 = false ∧ (csRunOnModule env oracle fuel).2 = false :=
  ⟨rfl, rfl⟩

/-- C8 -- worklist insertion is idempotent (an already-pending call site
leaves the worklist unchanged, a new one is appended at the back), and
the fixpoint loop's removal (`popBack`, the `back()`/`pop_back()` pair of
DsaGlobal.cc:395-396 used by `csStep`) always takes the most recently
appended element. -/
theorem c8_worklist_ops (w : List Inst) (i : Inst) :
    (i ∈ w → Insert w i = w) ∧
    (i ∉ w → Insert w i = w ++ [i]) ∧
    popBack (w ++ [i]) = some (i, w) := by
  refine ⟨fun h => ?_, fun h => ?_, ?_⟩
  · simp [Insert, h]
  · simp [Insert, h]
  · simp [popBack, List.getLast?_concat, List.dropLast_concat]

/-- C8 -- witness: both hypotheses discharged at concrete worklists. -/
theorem c8_worklist_ops_witness :
    ((2 : Nat) ∈ [1, 2] ∧ Insert [1, 2] 2 = [1, 2]) ∧
    ((3 : Nat) ∉ [1, 2] ∧ Insert [1, 2] 3 = [1, 2, 3]) :=
  ⟨⟨by decide, (c8_worklist_ops [1, 2] 2).1 (by decide)⟩,
   ⟨by decide, (c8_worklist_ops [1, 2] 3).2.1 (by decide)⟩⟩

theorem mem_Insert_self (w : List Inst) (i : Inst) : i ∈ Insert w i := by
  by_cases h : i ∈ w <;> simp [Insert, h]

theorem mem_Insert_of_mem (w : List Inst) (i j : Inst) (h : j ∈ w) :
    j ∈ Insert w i := by
  by_cases hi : i ∈ w <;> simp [Insert, hi, h]

theorem mem_foldl_Insert (l : List Inst) : ∀ (w : List Inst) (j : Inst),
    j ∈ w ∨ j ∈ l → j ∈ l.foldl Insert w := by
  induction l with
  | nil =>
    intro w j h
    rcases h with h | h
    · exact h
    · cases h
  | cons i rest ih =>
    intro w j h
    simp only [List.foldl_cons]
    apply ih
    rcases h with h | h
    · exact Or.inl (mem_Insert_of_mem w i j h)
    · rcases List.mem_cons.mp h with rfl | h
      · exact Or.inl (mem_Insert_self w j)
      · exact Or.inr h

/-- The module used by the C2 counterexample and witness: two functions
with bodies; call site 1 has caller 0 and callee 1; the caller's use-set
is the singleton 7, the callee's the singleton 9. -/
def envTwoFns : ModuleEnv :=
  { functions := [0, 1],
    isDeclaration := fun _ => false,
    isEmpty := fun _ => false,
    sccs := [],
    callSite := fun i =>
      { caller := 0, callee := some 1, inst := i, actuals := [], formals := [],
        isInlineAsm := false },
    localGraph := fun _ => Graph.empty,
    isGlobalLoc := fun _ => false }

/-- A mapper oracle for which no valid mapping ever exists (decision UP). -/
def oracleNoMapping : MapperOracle := fun _ _ _ => none

/-- Context-sensitive state used by the C2 counterexample and witness. -/
def stTwoFns : CSState :=
  { graphs := [(0, Graph.empty), (1, Graph.empty)],
    uses := [(0, [7]), (1, [9])],
    defs := [(0, []), (1, [])],
    worklist := [1] }

/-- C2 -- counterexample. The claim says UP propagation re-inserts the
use/def sets of the callee. Processing call site 1 performs an UP
propagation (the decision is UP), call site 9 is in the callee's use-set,
yet the resulting worklist is exactly the caller's use/def union: 9 is
not re-inserted (DsaGlobal.cc:429-439 inserts the caller's sets on UP). -/
theorem c2_counterexample :
    decidePropagation oracleNoMapping (envTwoFns.callSite 1)
        (lookupG stTwoFns.graphs 1) (lookupG stTwoFns.graphs 0) =
      PropagationKind.UP ∧
    (envTwoFns.callSite 1).callee = some 1 ∧
    9 ∈ getSet stTwoFns.uses 1 ∧
    (csStep envTwoFns oracleNoMapping stTwoFns).worklist = [7] ∧
    9 ∉ (csStep envTwoFns oracleNoMapping stTwoFns).worklist := by decide

/-- C2 (amended) -- after performing UP or DOWN propagation on a call
site, the engine re-inserts (idempotently, via `Insert`) every call site
in the use-set and def-set of the function whose graph changed: the
caller's sets for UP propagation and the callee's sets for DOWN
propagation. -/
theorem c2_amended_reinsertion (env : ModuleEnv) (oracle : MapperOracle)
    (st : CSState) (I : Inst) (w : List Inst) (callee : FuncId)
    (hpop : popBack st.worklist = some (I, w))
    (hasm : (env.callSite I).isInlineAsm = false)
    (hcal : (env.callSite I).callee = some callee)
    (hbody : env.hasBody callee = true) :
    (decidePropagation oracle (env.callSite I) (lookupG st.graphs callee)
        (lookupG st.graphs (env.callSite I).caller) = PropagationKind.UP →
      ∀ j, j ∈ getSet st.uses (env.callSite I).caller ∨
          j ∈ getSet st.defs (env.callSite I).caller →
        j ∈ (csStep env oracle st).worklist) ∧
    (decidePropagation oracle (env.callSite I) (lookupG st.graphs callee)
        (lookupG st.graphs (env.callSite I).caller) = PropagationKind.DOWN →
      ∀ j, j ∈ getSet st.uses callee ∨ j ∈ getSet st.defs callee →
        j ∈ (csStep env oracle st).worklist) := by
  constructor
  · intro hup j hj
    unfold csStep
    rw [hpop]
    simp only [hasm, hcal, hbody, hup, Bool.false_eq_true, if_false, if_true]
    rcases hj with hj | hj
    · exact mem_foldl_Insert _ _ j (Or.inl (mem_foldl_Insert _ _ j (Or.inr hj)))
    · exact mem_foldl_Insert _ _ j (Or.inr hj)
  · intro hdn j hj
    unfold csStep
    rw [hpop]
    simp only [hasm, hcal, hbody, hdn, Bool.false_eq_true, if_false, if_true]
    rcases hj with hj | hj
    · exact mem_foldl_Insert _ _ j (Or.inl (mem_foldl_Insert _ _ j (Or.inr hj)))
    · exact mem_foldl_Insert _ _ j (Or.inr hj)

/-- C2 (amended) -- witness: at the concrete module above the decision is
UP and call site 7 (the caller's use-set) lands in the worklist. -/
theorem c2_amended_reinsertion_witness :
    popBack stTwoFns.worklist = some (1, []) ∧
    7 ∈ (csStep envTwoFns oracleNoMapping stTwoFns).worklist :=
  ⟨by decide,
   (c2_amended_reinsertion envTwoFns oracleNoMapping stTwoFns 1 [] 1
      (by decide) (by decide) (by decide) (by decide)).1 (by decide) 7
     (Or.inl (by decide))⟩

theorem checkLoop_eq_find (env : ModuleEnv) (oracle : MapperOracle)
    (graphs : List (FuncId × Graph)) : ∀ l : List Inst,
    checkLoop env oracle graphs l =
      match l.find?
          (fun i => decide (sitePK env oracle graphs i ≠ PropagationKind.NONE)) with
      | some i => (false, [(i, sitePK env oracle graphs i)])
      | none => (true, []) := by
  intro l
  induction l with
  | nil => rfl
  | cons i rest ih =>
    by_cases h : sitePK env oracle graphs i = PropagationKind.NONE
    · simp [checkLoop, h, List.find?, ih]
    · simp [checkLoop, h, List.find?]

/-- The module used by the C4 counterexample: one function (0) with two
call records (1 and 2), both resolvable calls to function 1. -/
def envTwoSites : ModuleEnv :=
  { functions := [0, 1],
    isDeclaration := fun _ => false,
    isEmpty := fun _ => false,
    sccs := [[{ fn := some 0, calls := [1, 2] }]],
    callSite := fun i =>
      { caller := 0, callee := some 1, inst := i, actuals := [], formals := [],
        isInlineAsm := false },
    localGraph := fun _ => Graph.empty,
    isGlobalLoc := fun _ => false }

/-- C4 -- counterexample. The claim says any call site whose decision is
not NONE is reported. With the no-mapping oracle both resolvable call
sites 1 and 2 require UP propagation, but `checkNoMorePropagation`
returns at the first offender (DsaGlobal.cc:485-492), so only call site 1
is diagnosed; site 2 goes unreported. -/
theorem c4_counterexample :
    2 ∈ csResolvableSites envTwoSites ∧
    sitePK envTwoSites oracleNoMapping [] 2 ≠ PropagationKind.NONE ∧
    (checkNoMorePropagation envTwoSites oracleNoMapping []).2 =
      [(1, PropagationKind.UP)] := by decide

/-- C4 (amended) -- the post-condition check scans the resolvable call
sites in order and stops at the first one whose `decidePropagation` is
not NONE; that call site (and only that one) is reported as a diagnostic
carrying the offending instruction and the required direction, and the
check returns `false`; when every site's decision is NONE it returns
`true` with no diagnostics. The check's outcome never changes
`runOnModule`'s result: the run still returns `false` (no abort). -/
theorem c4_amended_postcheck (env : ModuleEnv) (oracle : MapperOracle)
    (graphs : List (FuncId × Graph)) (fuel : Nat) :
    checkNoMorePropagation env oracle graphs =
      (match (csResolvableSites env).find?
          (fun i => decide (sitePK env oracle graphs i ≠ PropagationKind.NONE)) with
        | some i => (false, [(i, sitePK env oracle graphs i)])
        | none => (true, [])) ∧
    (csRunOnModule env oracle fuel).2 = false :=
  ⟨checkLoop_eq_find env oracle graphs (csResolvableSites env), rfl⟩

theorem mem_insertFn (fns : List FuncId) (f x : FuncId) :
    x ∈ insertFn fns f ↔ x ∈ fns ∨ x = f := by
  by_cases h : f ∈ fns
  · simp only [insertFn, if_pos h]
    constructor
    · exact Or.inl
    · rintro (hx | rfl)
      · exact hx
      · exact h
  · simp [insertFn, if_neg h]

theorem fns_ciImportScc (env : ModuleEnv) : ∀ (scc : List CGNode) (st : CIState)
    (x : FuncId),
    x ∈ (ciImportScc env st scc).fns ↔
      x ∈ st.fns ∨ (env.hasBody x = true ∧ ∃ n ∈ scc, n.fn = some x) := by
  intro scc
  induction scc with
  | nil =>
    intro st x
    simp [ciImportScc]
  | cons n rest ih =>
    intro st x
    cases hfn : n.fn with
    | none =>
      simp only [ciImportScc, hfn]
      rw [ih]
      constructor
      · rintro (h | ⟨hb, m, hm, he⟩)
        · exact Or.inl h
        · exact Or.inr ⟨hb, m, List.mem_cons_of_mem _ hm, he⟩
      · rintro (h | ⟨hb, m, hm, he⟩)
        · exact Or.inl h
        · rcases List.mem_cons.mp hm with rfl | hm
          · rw [hfn] at he
            cases he
          · exact Or.inr ⟨hb, m, hm, he⟩
    | some fn =>
      by_cases hb : env.hasBody fn = true
      · simp only [ciImportScc, hfn, hb, if_true]
        rw [ih]
        simp only [mem_insertFn]
        constructor
        · rintro ((h | rfl) | ⟨hb2, m, hm, he⟩)
          · exact Or.inl h
          · exact Or.inr ⟨hb, n, List.mem_cons_self _ _, hfn⟩
          · exact Or.inr ⟨hb2, m, List.mem_cons_of_mem _ hm, he⟩
        · rintro (h | ⟨hb2, m, hm, he⟩)
          · exact Or.inl (Or.inl h)
          · rcases List.mem_cons.mp hm with rfl | hm
            · rw [hfn] at he
              injection he with he
              exact Or.inl (Or.inr he.symm)
            · exact Or.inr ⟨hb2, m, hm, he⟩
      · simp only [ciImportScc, hfn, hb, Bool.false_eq_true, if_false]
        rw [ih]
        constructor
        · rintro (h | ⟨hb2, m, hm, he⟩)
          · exact Or.inl h
          · exact Or.inr ⟨hb2, m, List.mem_cons_of_mem _ hm, he⟩
        · rintro (h | ⟨hb2, m, hm, he⟩)
          · exact Or.inl h
          · rcases List.mem_cons.mp hm with rfl | hm
            · rw [hfn] at he
              injection he with he
              subst he
              exact absurd hb2 hb
            · exact Or.inr ⟨hb2, m, hm, he⟩

theorem fns_ciSccStep (env : ModuleEnv) (st : CIState) (scc : List CGNode)
    (x : FuncId) :
    x ∈ (ciSccStep env st scc).fns ↔
      x ∈ st.fns ∨ (env.hasBody x = true ∧ ∃ n ∈ scc, n.fn = some x) :=
  fns_ciImportScc env scc st x

theorem fns_ciFold (env : ModuleEnv) : ∀ (sccs : List (List CGNode))
    (st : CIState) (x : FuncId),
    x ∈ (sccs.foldl (ciSccStep env) st).fns ↔
      x ∈ st.fns ∨
        (env.hasBody x = true ∧ ∃ scc ∈ sccs, ∃ n ∈ scc, n.fn = some x) := by
  intro sccs
  induction sccs with
  | nil =>
    intro st x
    simp
  | cons scc rest ih =>
    intro st x
    simp only [List.foldl_cons]
    rw [ih, fns_ciSccStep]
    constructor
    · rintro ((h | ⟨hb, m, hm, he⟩) | ⟨hb, s, hs, m, hm, he⟩)
      · exact Or.inl h
      · exact Or.inr ⟨hb, scc, List.mem_cons_self _ _, m, hm, he⟩
      · exact Or.inr ⟨hb, s, List.mem_cons_of_mem _ hs, m, hm, he⟩
    · rintro (h | ⟨hb, s, hs, m, hm, he⟩)
      · exact Or.inl (Or.inl h)
      · rcases List.mem_cons.mp hs with rfl | hs
        · exact Or.inl (Or.inr ⟨hb, m, hm, he⟩)
        · exact Or.inr ⟨hb, s, hs, m, hm, he⟩

/-- C7 -- after the context-insensitive run, `hasGraph(fn)` is true
exactly when `fn` has a body (neither a declaration nor empty) and was
reached through the call-graph SCC walk. -/
theorem c7_ci_has_graph_iff (env : ModuleEnv) (f : FuncId) :
    ciHasGraph (ciRunOnModule env).1 f = true ↔
      env.hasBody f = true ∧ ∃ scc ∈ env.sccs, ∃ n ∈ scc, n.fn = some f := by
  unfold ciHasGraph ciRunOnModule
  rw [decide_eq_true_eq]
  rw [fns_ciFold]
  simp

theorem lookupA_updateG : ∀ (gs : List (FuncId × Graph)) (f : FuncId) (g : Graph)
    (x : FuncId),
    (lookupA (updateG gs f g) x).isSome = (lookupA gs x).isSome := by
  intro gs
  induction gs with
  | nil => intro f g x; rfl
  | cons p rest ih =>
    intro f g x
    obtain ⟨k, v⟩ := p
    simp only [updateG]
    by_cases h : (k, v).1 = f
    · rw [if_pos h]
      by_cases hx : k = x
      · simp [lookupA, hx]
      · simp [lookupA, hx, ih]
    · rw [if_neg h]
      by_cases hx : k = x
      · simp [lookupA, hx]
      · simp [lookupA, hx, ih]

theorem keys_buImportScc (env : ModuleEnv) : ∀ (scc : List CGNode)
    (gs : List (FuncId × Graph)) (x : FuncId),
    (lookupA (buImportScc env gs scc) x).isSome = (lookupA gs x).isSome := by
  intro scc
  induction scc with
  | nil => intro gs x; rfl
  | cons n rest ih =>
    intro gs x
    cases hfn : n.fn with
    | none => simp [buImportScc, hfn, ih]
    | some fn =>
      by_cases hb : env.hasBody fn = true
      · simp [buImportScc, hfn, hb, ih, lookupA_updateG]
      · simp [buImportScc, hfn, hb, ih]

theorem keys_buResolveCalls (env : ModuleEnv) (oracle : MapperOracle) :
    ∀ (calls : List Inst)
    (acc : List (FuncId × Graph) × List (Inst × SimulationMapper)) (x : FuncId),
    (lookupA (buResolveCalls env oracle acc calls).1 x).isSome =
      (lookupA acc.1 x).isSome := by
  intro calls
  induction calls with
  | nil => intro acc x; rfl
  | cons i rest ih =>
    intro acc x
    obtain ⟨gs, ms⟩ := acc
    cases hc : (env.callSite i).callee with
    | none => simp [buResolveCalls, hc, ih]
    | some callee =>
      by_cases hb : env.hasBody callee = true
      · simp [buResolveCalls, hc, hb, ih, lookupA_updateG]
      · simp [buResolveCalls, hc, hb, ih]

theorem keys_buResolveScc (env : ModuleEnv) (oracle : MapperOracle) :
    ∀ (scc : List CGNode)
    (acc : List (FuncId × Graph) × List (Inst × SimulationMapper)) (x : FuncId),
    (lookupA (buResolveScc env oracle acc scc).1 x).isSome =
      (lookupA acc.1 x).isSome := by
  intro scc
  induction scc with
  | nil => intro acc x; rfl
  | cons n rest ih =>
    intro acc x
    cases hfn : n.fn with
    | none => simp [buResolveScc, hfn, ih]
    | some fn =>
      by_cases hb : env.hasBody fn = true
      · simp [buResolveScc, hfn, hb, ih, keys_buResolveCalls]
      · simp [buResolveScc, hfn, hb, ih]

theorem keys_buRunOnModule (env : ModuleEnv) (oracle : MapperOracle) :
    ∀ (sccs : List (List CGNode))
    (acc : List (FuncId × Graph) × List (Inst × SimulationMapper)) (x : FuncId),
    (lookupA (sccs.foldl
        (fun acc scc =>
          buResolveScc env oracle (buImportScc env acc.1 scc, acc.2) scc)
        acc).1 x).isSome = (lookupA acc.1 x).isSome := by
  intro sccs
  induction sccs with
  | nil => intro acc x; rfl
  | cons scc rest ih =>
    intro acc x
    simp only [List.foldl_cons]
    rw [ih, keys_buResolveScc, keys_buImportScc]

theorem keys_csStep (env : ModuleEnv) (oracle : MapperOracle) (st : CSState)
    (x : FuncId) :
    (lookupA (csStep env oracle st).graphs x).isSome =
      (lookupA st.graphs x).isSome := by
  unfold csStep
  cases hp : popBack st.worklist with
  | none => rfl
  | some p =>
    obtain ⟨I, w⟩ := p
    dsimp only
    split
    · rfl
    · split
      · rfl
      · split
        · split
          · simp [lookupA_updateG]
          · simp [lookupA_updateG]
          · rfl
        · rfl

theorem keys_csLoop (env : ModuleEnv) (oracle : MapperOracle) :
    ∀ (fuel : Nat) (st : CSState) (x : FuncId),
    (lookupA (csLoop env oracle fuel st).graphs x).isSome =
      (lookupA st.graphs x).isSome := by
  intro fuel
  induction fuel with
  | zero => intro st x; rfl
  | succ n ih =>
    intro st x
    unfold csLoop
    by_cases h : st.worklist.isEmpty = true
    · simp [h]
    · simp only [h, Bool.false_eq_true, if_false]
      rw [ih, keys_csStep]

theorem lookupA_initGraphs : ∀ (l : List FuncId) (f : FuncId),
    ((lookupA (l.map (fun x => (x, Graph.empty))) f).isSome = true) ↔ f ∈ l := by
  intro l
  induction l with
  | nil =>
    intro f
    simp [lookupA]
  | cons a rest ih =>
    intro f
    by_cases h : a = f
    · subst h
      simp [lookupA]
    · simp [lookupA, h, ih, Ne.symm h]

/-- C10 -- after the context-sensitive run, `hasGraph(F)` holds exactly
for the functions of the module -- declarations and empty-bodied
functions included, since a fresh graph is installed for every module
function before the bottom-up phase (DsaGlobal.cc:364-368) and nothing
ever removes a map entry. -/
theorem c10_cs_has_graph (env : ModuleEnv) (oracle : MapperOracle) (fuel : Nat)
    (f : FuncId) :
    csHasGraph (csRunOnModule env oracle fuel).1 f = true ↔
      f ∈ env.functions := by
  unfold csHasGraph csRunOnModule buRunOnModule
  dsimp only
  rw [keys_csLoop, keys_buRunOnModule]
  exact lookupA_initGraphs env.functions f

theorem cells_unify (g : Graph) (c d : Cell) : (g.unify c d).cells = g.cells := by
  unfold Graph.unify
  split <;> rfl

theorem retCells_unify (g : Graph) (c d : Cell) :
    (g.unify c d).retCells = g.retCells := by
  unfold Graph.unify
  split <;> rfl

theorem clone_cells (C : Cloner) (src : Graph) (n : Nat) :
    (C.clone src n).1.g.cells = C.g.cells := by
  unfold Cloner.clone
  split <;> rfl

theorem clone_retCells (C : Cloner) (src : Graph) (n : Nat) :
    (C.clone src n).1.g.retCells = C.g.retCells := by
  unfold Cloner.clone
  split <;> rfl

theorem mkCell_retCells (g : Graph) (l : Loc) :
    (g.mkCell l).1.retCells = g.retCells := by
  unfold Graph.mkCell
  split <;> rfl

theorem lookupA_append_some {α : Type} : ∀ (m1 m2 : List (Nat × α)) (x : Nat)
    (v : α), lookupA m1 x = some v → lookupA (m1 ++ m2) x = some v := by
  intro m1
  induction m1 with
  | nil =>
    intro m2 x v h
    cases h
  | cons p rest ih =>
    intro m2 x v h
    obtain ⟨k, w⟩ := p
    by_cases hk : k = x
    · simp only [lookupA, if_pos hk] at h
      simp only [List.cons_append, lookupA, if_pos hk]
      exact h
    · simp only [lookupA, if_neg hk] at h
      simp only [List.cons_append, lookupA, if_neg hk]
      exact ih m2 x v h

theorem lookupA_append_none {α : Type} : ∀ (m1 m2 : List (Nat × α)) (x : Nat),
    lookupA m1 x = none → lookupA (m1 ++ m2) x = lookupA m2 x := by
  intro m1
  induction m1 with
  | nil =>
    intro m2 x _
    rfl
  | cons p rest ih =>
    intro m2 x h
    obtain ⟨k, w⟩ := p
    by_cases hk : k = x
    · simp only [lookupA, if_pos hk] at h
      cases h
    · simp only [lookupA, if_neg hk] at h
      simp only [List.cons_append, lookupA, if_neg hk]
      exact ih m2 x h

theorem hasCell_mkCell (g : Graph) (l x : Loc) :
    (g.mkCell l).1.hasCell x = (g.hasCell x || decide (l = x)) := by
  unfold Graph.mkCell Graph.hasCell
  cases hc : lookupA g.cells l with
  | some c =>
    simp only [hc]
    by_cases hx : l = x
    · subst hx
      simp [hc]
    · simp [hx]
  | none =>
    simp only [hc]
    cases h0 : lookupA g.cells x with
    | some v =>
      rw [lookupA_append_some _ _ _ _ h0]
      simp [h0]
    | none =>
      rw [lookupA_append_none _ _ _ h0]
      by_cases hx : l = x
      · subst hx
        simp [lookupA, h0]
      · simp [lookupA, hx, h0]

theorem mkCell_of_hasCell (g : Graph) (l : Loc) (h : g.hasCell l = true) :
    (g.mkCell l).1 = g := by
  unfold Graph.hasCell at h
  unfold Graph.mkCell
  cases hc : lookupA g.cells l with
  | some c => rfl
  | none =>
    rw [hc] at h
    cases h

theorem hasRetCell_congr (g1 g2 : Graph) (h : g1.retCells = g2.retCells)
    (f : FuncId) : g1.hasRetCell f = g2.hasRetCell f := by
  unfold Graph.hasRetCell
  rw [h]

theorem hasCell_congr (g1 g2 : Graph) (h : g1.cells = g2.cells) (x : Loc) :
    g1.hasCell x = g2.hasCell x := by
  unfold Graph.hasCell
  rw [h]

theorem hasCell_fun_congr (g1 g2 : Graph) (h : g1.cells = g2.cells) :
    (fun l => g1.hasCell l) = fun l => g2.hasCell l := by
  funext l
  exact hasCell_congr g1 g2 h l

theorem cloneGlobalsLoop_spec (callerG : Graph) : ∀ (gs : List (Loc × Cell))
    (C : Cloner) (ev : List CloneEvent),
    (cloneGlobalsLoop callerG C gs ev).2 =
        ev ++ gs.map (fun p => CloneEvent.global p.1) ∧
    (cloneGlobalsLoop callerG C gs ev).1.g.retCells = C.g.retCells ∧
    ∀ x, (cloneGlobalsLoop callerG C gs ev).1.g.hasCell x =
        (C.g.hasCell x || gs.any (fun p => decide (p.1 = x))) := by
  intro gs
  induction gs with
  | nil =>
    intro C ev
    exact ⟨by simp [cloneGlobalsLoop], rfl, fun x => by simp [cloneGlobalsLoop]⟩
  | cons p rest ih =>
    intro C ev
    obtain ⟨l, cell⟩ := p
    simp only [cloneGlobalsLoop]
    refine ⟨?_, ?_, ?_⟩
    · rw [(ih _ _).1]
      simp [List.append_assoc]
    · rw [(ih _ _).2.1]
      rw [retCells_unify, mkCell_retCells, clone_retCells]
    · intro x
      rw [(ih _ _).2.2 x]
      rw [hasCell_congr _ _ (cells_unify _ _ _) x, hasCell_mkCell,
        hasCell_congr _ _ (clone_cells _ _ _) x]
      simp [List.any_cons, Bool.or_assoc]

/-- The specification of which actual/formal pairs the argument loop
clones and unifies: position `k` is processed exactly when the caller
side has a cell for the actual and the callee side (its cell map frozen
during the loop) has a cell for the formal. -/
def argEventsSpec (callerHas calleeHas : Loc → Bool) :
    List (Loc × Loc) → Nat → List CloneEvent
  | [], _ => []
  | (arg, fml) :: rest, k =>
    if callerHas arg && calleeHas fml then
      CloneEvent.arg k :: argEventsSpec callerHas calleeHas rest (k + 1)
    else argEventsSpec callerHas calleeHas rest (k + 1)

theorem cloneArgsLoop_spec (callerG : Graph) : ∀ (pairs : List (Loc × Loc))
    (C : Cloner) (k : Nat) (ev : List CloneEvent),
    (cloneArgsLoop callerG C pairs k ev).2 =
        ev ++ argEventsSpec (fun l => callerG.hasCell l)
          (fun l => C.g.hasCell l) pairs k ∧
    (cloneArgsLoop callerG C pairs k ev).1.g.cells = C.g.cells := by
  intro pairs
  induction pairs with
  | nil =>
    intro C k ev
    exact ⟨by simp [cloneArgsLoop, argEventsSpec], rfl⟩
  | cons p rest ih =>
    intro C k ev
    obtain ⟨arg, fml⟩ := p
    by_cases hg : (callerG.hasCell arg && C.g.hasCell fml) = true
    · have hfml : C.g.hasCell fml = true := by
        rcases Bool.and_eq_true_iff.mp hg with ⟨_, h2⟩
        exact h2
      have hfml2 : (C.clone callerG (callerG.getCell arg).node).1.g.hasCell fml
          = true := by
        rw [hasCell_congr _ _ (clone_cells _ _ _) fml]
        exact hfml
      have hq :
          ((C.clone callerG (callerG.getCell arg).node).1.g.mkCell fml).1 =
            (C.clone callerG (callerG.getCell arg).node).1.g :=
        mkCell_of_hasCell _ _ hfml2
      have hcells :
          (({ g := (((C.clone callerG (callerG.getCell arg).node).1.g.mkCell
                  fml).1.unify
                (((C.clone callerG (callerG.getCell arg).node).1.g.mkCell
                  fml).2)
                ⟨(C.clone callerG (callerG.getCell arg).node).2,
                  (callerG.getCell arg).offset⟩),
              map := (C.clone callerG (callerG.getCell arg).node).1.map } :
              Cloner)).g.cells = C.g.cells := by
        rw [cells_unify, hq, clone_cells]
      simp only [cloneArgsLoop, argEventsSpec, hg, if_true]
      refine ⟨?_, ?_⟩
      · rw [(ih _ _ _).1]
        rw [hasCell_fun_congr _ _ hcells]
        simp [List.append_assoc]
      · rw [(ih _ _ _).2, hcells]
    · simp only [cloneArgsLoop, argEventsSpec, hg, if_false]
      exact ih _ _ _

theorem retStep_cells (C : Cloner) (callerG : Graph) (n : Nat) (f : FuncId)
    (off : Nat) :
    ((C.clone callerG n).1.g.unify ((C.clone callerG n).1.g.getRetCell f)
      ⟨(C.clone callerG n).2, off⟩).cells = C.g.cells := by
  rw [cells_unify, clone_cells]

/-- C3 (amended) -- the full event trace of the caller-into-callee
clone-and-resolve helper: in this fixed order it (1) clones and unifies
every global location of the caller graph (in particular every global
shared between the two graphs), (2) clones and unifies the return cell
when the callee graph has a return cell for the callee and the caller
graph has a cell for the call instruction, (3) clones and unifies each
actual/formal pair up to the shorter of the two argument lists for which
the caller graph has a cell for the actual and the callee graph (after
step 1) has a cell for the formal, and the destination graph is
`compress()`-ed exactly once, at the very end. -/
theorem c3_amended_trace (gl : Loc → Bool) (cs : CallSiteInfo)
    (callerG calleeG : Graph) :
    (cloneAndResolveArguments gl cs callerG calleeG).2 =
      (callerG.globalsOf gl).map (fun p => CloneEvent.global p.1)
      ++ (if calleeG.hasRetCell (cs.callee.getD 0) && callerG.hasCell cs.inst
          then [CloneEvent.ret] else [])
      ++ argEventsSpec (fun l => callerG.hasCell l)
          (fun l => calleeG.hasCell l ||
            (callerG.globalsOf gl).any (fun p => decide (p.1 = l)))
          (cs.actuals.zip cs.formals) 0
      ++ [CloneEvent.compressed] := by
  obtain ⟨hev1, hret1, hcell1⟩ :=
    cloneGlobalsLoop_spec callerG (callerG.globalsOf gl)
      { g := calleeG, map := [] } []
  have hret2 : (cloneGlobalsLoop callerG { g := calleeG, map := [] }
      (callerG.globalsOf gl) []).1.g.retCells = calleeG.retCells := hret1
  have hcell2 : ∀ x, (cloneGlobalsLoop callerG { g := calleeG, map := [] }
      (callerG.globalsOf gl) []).1.g.hasCell x =
      (calleeG.hasCell x ||
        (callerG.globalsOf gl).any (fun p => decide (p.1 = x))) := hcell1
  simp only [cloneAndResolveArguments]
  rw [hasRetCell_congr _ _ hret2 (cs.callee.getD 0)]
  by_cases hret : (calleeG.hasRetCell (cs.callee.getD 0) &&
      callerG.hasCell cs.inst) = true
  · rw [if_pos hret]
    rw [(cloneArgsLoop_spec callerG _ _ _ _).1]
    rw [hasCell_fun_congr _ _ (retStep_cells _ callerG _ _ _)]
    rw [funext hcell2]
    rw [hev1]
    simp only [List.append_assoc, List.nil_append, List.cons_append,
      List.singleton_append]
    rw [if_pos hret]
    simp
  · rw [if_neg hret]
    rw [(cloneArgsLoop_spec callerG _ _ _ _).1]
    rw [funext hcell2]
    rw [hev1]
    simp only [List.append_assoc, List.nil_append, List.cons_append,
      List.singleton_append]
    rw [if_neg hret]
    simp

/-- A call site with exactly one actual/formal pair, used by the C3
counterexample. -/
def csOneArg : CallSiteInfo :=
  { caller := 0, callee := some 1, inst := 50, actuals := [10], formals := [20],
    isInlineAsm := false }

/-- C3 -- counterexample. The claim says each actual/formal pair up to
the shorter of the two lists is cloned and unified. Here both lists have
length 1 (so `min` is 1 and pair 0 has a counterpart on both sides), yet
no clone-and-unify happens for pair 0 -- the trace carries no `arg 0`
event and the callee graph is returned unchanged -- because neither graph
has a cell for the actual or the formal and DsaGlobal.cc:215 skips such
pairs. -/
theorem c3_counterexample :
    min csOneArg.actuals.length csOneArg.formals.length = 1 ∧
    CloneEvent.arg 0 ∉
      (cloneAndResolveArguments (fun _ => false) csOneArg
        Graph.empty Graph.empty).2 ∧
    (cloneAndResolveArguments (fun _ => false) csOneArg
        Graph.empty Graph.empty).1 = Graph.empty := by decide

end Dsa
